import Mathlib

/-!
A verification development for the py-vss repository (a reader for legacy
Visual SourceSafe databases).  The Python sources under `VSS/` are shallowly
embedded below: byte buffers become `List Nat` (one entry per byte), the
mutable `vss_record_reader` becomes a structure threaded through each
operation, exceptions become `Except` values, and the in-place loops of
`vss_changeset.py`, `vss_item_file.py` and `vss_database.py` become
structural recursions over explicit state.  Definitions mirror the Python
code; definitions whose doc comment says "spec-level" restate the prose
specification instead, for comparison with the code-derived ones.
-/

/- ===================== little-endian byte helpers ===================== -/

/-- Little-endian value of a byte list, as produced by `int.from_bytes(...,
byteorder='little')` in `vss_record.py`. -/
def leNat : List Nat → Nat
  | [] => 0
  | b :: rest => b + 256 * leNat rest

/-- Two's-complement reading of a `w`-bit little-endian value
(`int.from_bytes(..., signed=True)`). -/
def to_signed (v w : Nat) : Int :=
  if v < 2 ^ (w - 1) then (v : Int) else (v : Int) - 2 ^ w

/-- Spec-level: little-endian encoding of a 16-bit value (`u16` of the spec's
delta record layout). -/
def le16bytes (x : Nat) : List Nat := [x % 256, x / 256 % 256]

/-- Spec-level: little-endian encoding of a 32-bit value (`u32` of the spec's
delta record layout). -/
def le32bytes (x : Nat) : List Nat :=
  [x % 256, x / 256 % 256, x / 65536 % 256, x / 16777216 % 256]

/- ===================== crc32 (vss_record.py, class crc32) ===================== -/

/-- `crc32.POLY` of `vss_record.py`. -/
def crc32_POLY : Nat := 0xEDB88320

/-- One iteration of the inner `for j in range(8)` loop of the table builder in
`vss_record.py`: `value = POLY ^ (value >> 1) if value & 1 else value >> 1`. -/
def crc32_bit_step (value : Nat) : Nat :=
  if value &&& 1 = 1 then crc32_POLY ^^^ (value >>> 1) else value >>> 1

/-- `k`-fold application of `crc32_bit_step`. -/
def crc32_iter : Nat → Nat → Nat
  | 0, value => value
  | k + 1, value => crc32_iter k (crc32_bit_step value)

/-- `crc32.table[i]`: the table builder applies `crc32_bit_step` eight times to
the index. -/
def crc32_table (i : Nat) : Nat := crc32_iter 8 i

/-- `crc32.calculate` of `vss_record.py` restricted to the byte region it
walks: `crc = (crc >> 8) ^ table[0xFF & (crc ^ data[i])]` folded over the
bytes, then xored with `final`. -/
def crc32_calculate (data : List Nat) (initial final : Nat) : Nat :=
  (data.foldl (fun crc b => (crc >>> 8) ^^^ crc32_table (0xFF &&& (crc ^^^ b))) initial) ^^^ final

/-- Spec-level: one byte of the reflected CRC-32 (polynomial `0xEDB88320`),
processed bit by bit: xor the byte into the low bits, then eight shift/xor
rounds. -/
def crc32_spec_byte (crc b : Nat) : Nat := crc32_iter 8 (crc ^^^ b)

/-- Spec-level: reflected CRC-32 with initial value 0 and final xor 0 over a
byte string. -/
def crc32_spec (data : List Nat) : Nat := data.foldl crc32_spec_byte 0

/-- Spec-level: the VSS checksum described in the spec: the low 16 bits of
`crc XOR (crc >> 16)` where `crc` is the reflected CRC-32 of the payload. -/
def crc16_spec (data : List Nat) : Nat :=
  0xFFFF &&& (crc32_spec data ^^^ (crc32_spec data >>> 16))

/- ===================== vss_record_reader ===================== -/

/-- Errors raised by the reader layer of `vss_record.py`. -/
inductive VssErr where
  | endOfBuffer
  | unalignedRead
  | recordCrcMismatch
deriving DecidableEq, Repr

/-- The state of `vss_record_reader`: an immutable byte buffer `data`, the
slice base `slice_offset`, the current read position `offset` (relative to
`slice_offset`), the window size `length`, and the text `encoding`. -/
structure vss_record_reader where
  data : List Nat
  slice_offset : Nat
  offset : Nat
  length : Nat
  encoding : String
deriving DecidableEq, Repr

/-- The byte window a reader is allowed to touch:
`data[slice_offset : slice_offset + length]`. -/
def vss_record_reader.window (r : vss_record_reader) : List Nat :=
  (r.data.drop r.slice_offset).take r.length

/-- `check_read`: fails when `offset + length > self.length`. -/
def vss_record_reader.check_read (r : vss_record_reader) (n : Nat) : Except VssErr Unit :=
  if r.offset + n > r.length then .error .endOfBuffer else .ok ()

/-- `check_read_at`: fails when `offset + length > self.length`. -/
def vss_record_reader.check_read_at (r : vss_record_reader) (off n : Nat) : Except VssErr Unit :=
  if off + n > r.length then .error .endOfBuffer else .ok ()

/-- `read_bytes`: bounds check, then return
`data[offset + slice_offset : offset + slice_offset + n]` and advance
`offset`.  The reader component of the result is the post-call state; on
failure the exception is raised before the state changes. -/
def vss_record_reader.read_bytes (r : vss_record_reader) (n : Nat) :
    Except VssErr (List Nat) × vss_record_reader :=
  match r.check_read n with
  | .error e => (.error e, r)
  | .ok _ =>
      (.ok ((r.data.drop (r.offset + r.slice_offset)).take n),
        { r with offset := r.offset + n })

/-- `read_bytes_at`: peek at `offset` without advancing `self.offset`. -/
def vss_record_reader.read_bytes_at (r : vss_record_reader) (off n : Nat) :
    Except VssErr (List Nat) × vss_record_reader :=
  match r.check_read_at off n with
  | .error e => (.error e, r)
  | .ok _ => (.ok ((r.data.drop (off + r.slice_offset)).take n), r)

/-- `skip`: bounds check, then advance `offset`. -/
def vss_record_reader.skip (r : vss_record_reader) (n : Nat) :
    Except VssErr Unit × vss_record_reader :=
  match r.check_read n with
  | .error e => (.error e, r)
  | .ok _ => (.ok (), { r with offset := r.offset + n })

/-- `remaining`. -/
def vss_record_reader.remaining (r : vss_record_reader) : Nat := r.length - r.offset

/-- `unpack_at` for a format of total size `size`, abstracted to the raw bytes
the format would decode: bounds check against the window, no advance. -/
def vss_record_reader.unpack_at (r : vss_record_reader) (off size : Nat) :
    Except VssErr (List Nat) × vss_record_reader :=
  match r.check_read_at off size with
  | .error e => (.error e, r)
  | .ok _ => (.ok ((r.data.drop (off + r.slice_offset)).take size), r)

/-- `unpack`: `unpack_at` at the current offset, then advance by the format
size. -/
def vss_record_reader.unpack (r : vss_record_reader) (size : Nat) :
    Except VssErr (List Nat) × vss_record_reader :=
  match (r.unpack_at r.offset size).1 with
  | .error e => (.error e, r)
  | .ok bs => (.ok bs, { r with offset := r.offset + size })

/-- `read_int16`: aligned by default (`self.offset & 1` must be zero), then a
2-byte signed little-endian read. -/
def vss_record_reader.read_int16 (r : vss_record_reader) (unaligned : Bool) :
    Except VssErr Int × vss_record_reader :=
  if unaligned = false ∧ r.offset &&& 1 ≠ 0 then (.error .unalignedRead, r)
  else
    match r.read_bytes 2 with
    | (.error e, r1) => (.error e, r1)
    | (.ok bs, r1) => (.ok (to_signed (leNat bs) 16), r1)

/-- `read_int16_at`: the peek variant checks `(self.offset + offset) & 1`. -/
def vss_record_reader.read_int16_at (r : vss_record_reader) (off : Nat) (unaligned : Bool) :
    Except VssErr Int × vss_record_reader :=
  if unaligned = false ∧ (r.offset + off) &&& 1 ≠ 0 then (.error .unalignedRead, r)
  else
    match r.read_bytes_at off 2 with
    | (.error e, r1) => (.error e, r1)
    | (.ok bs, r1) => (.ok (to_signed (leNat bs) 16), r1)

/-- `read_int32`: aligned by default (`self.offset & 3` must be zero), then a
4-byte signed little-endian read. -/
def vss_record_reader.read_int32 (r : vss_record_reader) (unaligned : Bool) :
    Except VssErr Int × vss_record_reader :=
  if unaligned = false ∧ r.offset &&& 3 ≠ 0 then (.error .unalignedRead, r)
  else
    match r.read_bytes 4 with
    | (.error e, r1) => (.error e, r1)
    | (.ok bs, r1) => (.ok (to_signed (leNat bs) 32), r1)

/-- `read_int32_at`: the peek variant of the 32-bit read.  NOTE: the source
tests `(self.offset + offset) & 1`, not `& 3`, before a 4-byte read. -/
def vss_record_reader.read_int32_at (r : vss_record_reader) (off : Nat) (unaligned : Bool) :
    Except VssErr Int × vss_record_reader :=
  if unaligned = false ∧ (r.offset + off) &&& 1 ≠ 0 then (.error .unalignedRead, r)
  else
    match r.read_bytes_at off 4 with
    | (.error e, r1) => (.error e, r1)
    | (.ok bs, r1) => (.ok (to_signed (leNat bs) 32), r1)

/-- The pure value computed by `crc16` once its bounds check has passed:
`crc32.calculate(self.data, offset=self.offset+self.slice_offset,
length=length)` folded to 16 bits by `0xFFFF & (crc ^ (crc >> 16))`. -/
def vss_record_reader.crc16_value (r : vss_record_reader) (n : Nat) : Nat :=
  let crc := crc32_calculate ((r.data.drop (r.offset + r.slice_offset)).take n) 0 0
  0xFFFF &&& (crc ^^^ (crc >>> 16))

/-- `crc16(length)`: for a negative `length` use the remaining window, else
`check_read(length)` first.  Never moves `offset`. -/
def vss_record_reader.crc16 (r : vss_record_reader) (len : Int) :
    Except VssErr Nat × vss_record_reader :=
  if len < 0 then (.ok (r.crc16_value (r.length - r.offset)), r)
  else if r.offset + len.toNat > r.length then (.error .endOfBuffer, r)
  else (.ok (r.crc16_value len.toNat), r)

/- ===================== vss_record_header ===================== -/

/-- `vss_comment_record.SIGNATURE = b"MC"` as bytes. -/
def MC_SIGNATURE : List Nat := [77, 67]

/-- The fields of `vss_record_header` after `read`, including the slice reader
built for the record payload. -/
structure vss_record_header where
  offset : Nat
  length : Nat
  signature : List Nat
  file_crc : Nat
  actual_crc : Nat
  reader : vss_record_reader
deriving DecidableEq, Repr

/-- `vss_record_header.read`: remember the current offset, unpack the 8-byte
header `<I2sH` (advancing by 8), clone a slice reader bounded to the record
payload, compute `actual_crc` over the payload, and skip the payload in the
original reader.  The two bounds tests of `clone` and the one of `skip`
collapse to a single check `offset + 8 + length ≤ self.length`. -/
def vss_record_header.read (r : vss_record_reader) :
    Except VssErr (vss_record_header × vss_record_reader) :=
  if r.offset + 8 > r.length then .error .endOfBuffer
  else
    let base := r.offset + r.slice_offset
    let hlen := leNat ((r.data.drop base).take 4)
    let signature := (r.data.drop (base + 4)).take 2
    let file_crc := leNat ((r.data.drop (base + 6)).take 2)
    let r1 : vss_record_reader := { r with offset := r.offset + 8 }
    if r1.offset + hlen > r1.length then .error .endOfBuffer
    else
      let slice : vss_record_reader :=
        { data := r.data, slice_offset := r1.offset + r.slice_offset,
          offset := 0, length := hlen, encoding := r.encoding }
      let actual := slice.crc16_value hlen
      .ok ({ offset := r.offset, length := hlen, signature := signature,
             file_crc := file_crc, actual_crc := actual, reader := slice },
           { r1 with offset := r1.offset + hlen })

/-- `check_crc`: raise `RecordCrcException` unless the record is a comment
(`MC`) record or the stored CRC matches the computed one. -/
def vss_record_header.check_crc (h : vss_record_header) : Except VssErr Unit :=
  if h.signature ≠ MC_SIGNATURE ∧ h.file_crc ≠ h.actual_crc then
    .error .recordCrcMismatch
  else .ok ()

/- ===================== vss_delta_operation / vss_delta_record ===================== -/

/-- One delta operation of an `FD` record (`vss_delta_operation`): the fields
unpacked by `<HHII>` plus, for command 0 (WriteLog), the trailing data bytes;
for other commands `self.data` is `None`. -/
structure vss_delta_operation where
  command : Nat
  skip : Nat
  offset : Nat
  length : Nat
  data : Option (List Nat)
deriving DecidableEq, Repr

/-- `vss_delta_operation.apply`: WriteLog (0) yields the stored data,
WriteSuccessor (1) yields `base_data[offset : offset + length]`; any other
command falls off the end of the Python function and yields `None`. -/
def vss_delta_operation.apply (op : vss_delta_operation) (base_data : List Nat) :
    Option (List Nat) :=
  if op.command = 0 then op.data
  else if op.command = 1 then some ((base_data.drop op.offset).take op.length)
  else none

/-- `vss_delta_record.apply_delta`: `bytes().join(op.apply(base_data) for op in
self.delta_operations)`.  A `None` piece (unknown command) makes the join
fail, which we model as `none`. -/
def vss_delta_record.apply_delta (ops : List vss_delta_operation) (base_data : List Nat) :
    Option (List Nat) :=
  match ops with
  | [] => some []
  | op :: rest => do
      let piece ← op.apply base_data
      let tail ← vss_delta_record.apply_delta rest base_data
      pure (piece ++ tail)

/-- `vss_delta_record.read`: the `while True` loop of the source, modelled over
the unread suffix of the record reader's window.  Each turn constructs one
`vss_delta_operation` (12 header bytes, plus `length` data bytes when the
command is WriteLog), stops before appending an operation whose command is
Stop (2), and fails with `EndOfBuffer` (here `none`) when the suffix is too
short. -/
def read_delta_ops (bs : List Nat) : Option (List vss_delta_operation) :=
  if _h12 : bs.length < 12 then none
  else
    let command := leNat (bs.take 2)
    let skip := leNat ((bs.drop 2).take 2)
    let off := leNat ((bs.drop 4).take 4)
    let len := leNat ((bs.drop 8).take 4)
    if command = 0 then
      if _hd : (bs.drop 12).length < len then none
      else
        let op : vss_delta_operation :=
          ⟨command, skip, off, len, some ((bs.drop 12).take len)⟩
        match read_delta_ops (bs.drop (12 + len)) with
        | none => none
        | some ops => some (op :: ops)
    else if command = 2 then some []
    else
      let op : vss_delta_operation := ⟨command, skip, off, len, none⟩
      match read_delta_ops (bs.drop 12) with
      | none => none
      | some ops => some (op :: ops)
termination_by bs.length
decreasing_by
  · simp only [List.length_drop]
    omega
  · simp only [List.length_drop]
    omega

/-- Spec-level: the on-disk encoding of one delta operation, following the
spec's layout `command: u16, skip: u16, offset: u32, length: u32`, followed by
`length` bytes if command = 0. -/
def encode_delta_op (op : vss_delta_operation) : List Nat :=
  le16bytes op.command ++ le16bytes op.skip ++ le32bytes op.offset ++ le32bytes op.length ++
    (if op.command = 0 then op.data.getD [] else [])

/-- Spec-level: the bytes of a Stop operation. -/
def delta_stop_bytes : List Nat := le16bytes 2 ++ le16bytes 0 ++ le32bytes 0 ++ le32bytes 0

/-- The data bytes of a delta operation are present, and of the advertised
length, exactly for WriteLog operations. -/
def delta_data_ok (op : vss_delta_operation) : Bool :=
  if op.command = 0 then
    match op.data with
    | some d => d.length == op.length
    | none => false
  else op.data == none

/-- A delta operation whose fields fit the on-disk field widths and whose data
is present exactly for WriteLog operations (what the parser produces for a
non-Stop operation). -/
def wf_delta_op (op : vss_delta_operation) : Prop :=
  op.command < 65536 ∧ op.command ≠ 2 ∧ op.skip < 65536 ∧
    op.offset < 4294967296 ∧ op.length < 4294967296 ∧ delta_data_ok op = true

instance (op : vss_delta_operation) : Decidable (wf_delta_op op) := by
  unfold wf_delta_op
  exact inferInstance

/- ===================== vss_changeset ===================== -/

/-- The slice of `vss_revision` that `vss_changeset.py` consumes: the author
and the two comment strings (Python `None` and the empty string are both
falsy and are modelled as `""`). -/
structure rev_info where
  author : String
  comment : String
  label_comment : String
deriving DecidableEq, Repr

/-- The slice of `vss_action` that `vss_changeset_history.build` consumes:
`timestamp` (copied from the revision by `vss_action.__init__`), the pathname
that distinguishes actions, and the revision. -/
structure vss_action where
  timestamp : Nat
  path : String
  revision : rev_info
deriving DecidableEq, Repr

/-- `vss_change`: the accumulated action list, the key fields (Python `None`
until the first append), and the deduplicated comment list. -/
structure vss_change where
  action_list : List vss_action
  timestamp : Option Nat
  author : Option String
  comments : List String
deriving DecidableEq, Repr

/-- `vss_change.__init__`. -/
def empty_change : vss_change := ⟨[], none, none, []⟩

/-- The whitespace set of Python's `str.strip()` (ASCII part). -/
def py_whitespace (c : Char) : Bool :=
  c = ' ' || c = '\t' || c = '\n' || c = '\r' || c = '\x0b' || c = '\x0c'

/-- `comment.strip()`. -/
def py_strip (s : List Char) : List Char :=
  (((s.dropWhile py_whitespace).reverse).dropWhile py_whitespace).reverse

/-- `re.sub('\r+\n|\r+', '\n', comment)` as a scanner: the flag records a
pending run of carriage returns, which is emitted as a single newline,
swallowing one directly following newline. -/
def norm_cr_go : List Char → Bool → List Char
  | [], pending => if pending then ['\n'] else []
  | c :: rest, pending =>
      if c = '\r' then norm_cr_go rest true
      else if pending then
        if c = '\n' then '\n' :: norm_cr_go rest false
        else '\n' :: c :: norm_cr_go rest false
      else c :: norm_cr_go rest false

/-- `re.sub('\n\n\n+', '\n\n', comment)` as a scanner: `k` counts a pending
run of newlines, emitted as `min k 2` newlines. -/
def collapse_nl_go : List Char → Nat → List Char
  | [], k => List.replicate (min k 2) '\n'
  | c :: rest, k =>
      if c = '\n' then collapse_nl_go rest (k + 1)
      else List.replicate (min k 2) '\n' ++ c :: collapse_nl_go rest 0

/-- The comment normalization pipeline of `vss_change.append`: strip, then
normalize line separators, then collapse runs of three or more newlines. -/
def normalize_comment (s : String) : String :=
  ⟨collapse_nl_go (norm_cr_go (py_strip s.data) false) 0⟩

/-- The body of the `for comment in ...` loop of `vss_change.append` for one
comment string: skip falsy comments, normalize, then append unless already
present. -/
def add_comment (comments : List String) (comment : String) : List String :=
  if comment = "" then comments
  else
    let c := normalize_comment comment
    if c ≠ "" ∧ c ∉ comments then comments ++ [c] else comments

/-- `vss_change.append`: set the key fields on first use, **insert the action
at position 0**, and fold both comments of the revision into the comment
list. -/
def vss_change.append (ch : vss_change) (a : vss_action) : vss_change :=
  { action_list := a :: ch.action_list
    timestamp := match ch.timestamp with | none => some a.timestamp | some t => some t
    author := match ch.author with | none => some a.revision.author | some x => some x
    comments := add_comment (add_comment ch.comments a.revision.comment) a.revision.label_comment }

/-- The sort key comparison of `action_list.sort(key=lambda a: (a.timestamp,
a.revision.author))`: lexicographic on the pair. -/
def action_le (a b : vss_action) : Bool :=
  a.timestamp < b.timestamp ||
    (a.timestamp == b.timestamp && decide (a.revision.author ≤ b.revision.author))

/-- The sort key itself. -/
def action_key (a : vss_action) : Nat × String := (a.timestamp, a.revision.author)

/-- The grouping loop of `vss_changeset_history.build`: `ch` is the changeset
currently being filled; a new changeset starts whenever the key changes. -/
def changes_fold : vss_change → List vss_action → List vss_change
  | ch, [] => [ch]
  | ch, a :: rest =>
      if ch.timestamp ≠ some a.timestamp ∨ ch.author ≠ some a.revision.author then
        ch :: changes_fold (empty_change.append a) rest
      else
        changes_fold (ch.append a) rest

/-- `vss_changeset_history.build` after the drain loop: sort the action list
stably by `(timestamp, author)` and group it into changesets. -/
def build_changesets (action_list : List vss_action) : List vss_change :=
  match action_list.mergeSort action_le with
  | [] => []
  | a :: rest => changes_fold (empty_change.append a) rest

/- ===================== vss_item_file: get_revision (file variant) ===================== -/

/-- Errors raised by `get_revision`: `ArgumentOutOfRangeException`, plus
Python's `IndexError` for a list access outside the (pre-allocated) revision
array. -/
inductive ItemErr where
  | argumentOutOfRange
  | indexError
deriving DecidableEq, Repr

/-- The part of `vss_file_item_file` that `get_revision` consults.  Revisions
are identified by an opaque tag (`Nat`); array slots may be `none` (the array
is pre-allocated with `None`).  `branch_parent` mirrors the three possible
Python values: `none` is Python `None`, `some none` is the `NotImplemented`
sentinel, `some (some p)` is a loaded parent item file. -/
inductive vss_file_item_file where
  | mk (num_revisions : Int) (first_revision : Int) (revisions : List (Option Nat))
      (branch_parent : Option (Option vss_file_item_file))

def vss_file_item_file.num_revisions : vss_file_item_file → Int
  | .mk n _ _ _ => n

def vss_file_item_file.first_revision : vss_file_item_file → Int
  | .mk _ f _ _ => f

def vss_file_item_file.revisions : vss_file_item_file → List (Option Nat)
  | .mk _ _ revs _ => revs

def vss_file_item_file.branch_parent : vss_file_item_file → Option (Option vss_file_item_file)
  | .mk _ _ _ bp => bp

/-- Python list indexing `l[i]` with negative-index wrap-around and
`IndexError` outside the valid range. -/
def py_list_get (l : List (Option Nat)) (i : Int) : Except ItemErr (Option Nat) :=
  if 0 ≤ i ∧ i < (l.length : Int) then .ok (l.getD i.toNat none)
  else if -(l.length : Int) ≤ i ∧ i < 0 then .ok (l.getD (l.length - (-i).toNat) none)
  else .error .indexError

/-- `vss_file_item_file.get_revision`: empty revision list short-circuits to
`None`; then the `[1, num_revisions]` range check; then a local array access
for `version >= first_revision`; otherwise delegation to the branch parent,
with `None`/`NotImplemented` parents yielding `None`. -/
def vss_file_item_file.get_revision : vss_file_item_file → Int → Except ItemErr (Option Nat)
  | .mk num first revs bp, version =>
      if revs = [] then .ok none
      else if version < 1 ∨ version > num then .error .argumentOutOfRange
      else if first ≤ version then py_list_get revs (version - first)
      else
        match bp with
        | none => .ok none
        | some none => .ok none
        | some (some p) => p.get_revision version

/-- Structural well-formedness of a file item file matching the construction
in `vss_item_file.py`: the revision array has
`num_revisions - (first_revision - 1)` slots (so it is empty exactly when the
chain is), `first_revision ≥ 1`, and a present branch parent is itself
well-formed and covers all revisions below `first_revision` (the header's
`num_revisions` counts the branch parents' revisions too). -/
def vss_file_item_file.wf : vss_file_item_file → Prop
  | .mk num first revs bp =>
      1 ≤ first ∧ first ≤ num + 1 ∧ (revs.length : Int) = num + 1 - first ∧
      (match bp with
       | some (some p) => p.wf ∧ first - 1 ≤ p.num_revisions
       | _ => True)

/- ===================== vss_database.open_records_file ===================== -/

/-- Errors of the database layer: `VssFileNotFoundException`, plus an
out-of-fuel marker used only to express termination of the recursion. -/
inductive DbErr where
  | fileNotFound
  | outOfFuel
deriving DecidableEq, Repr

/-- The result of constructing a `vss_file_item_file` as far as the branch
chain is concerned: its physical name and the physical name its
`branch_parent` was opened under (if any). -/
structure db_file where
  name : String
  branch_parent_name : Option String
deriving DecidableEq, Repr

/-- One slot of `record_files_by_physical`: the `NotImplemented` in-progress
sentinel, or a loaded file. -/
inductive cache_entry where
  | inProgress
  | loaded (f : db_file)
deriving DecidableEq, Repr

/-- The on-disk universe: the item files that exist, each with the
`branch_file` field of its header (`none` when empty). -/
def db_env := List (String × Option String)

/-- Dictionary lookup in `record_files_by_physical`. -/
def cache_get (cache : List (String × cache_entry)) (name : String) : Option cache_entry :=
  (cache.find? (fun e => e.1 == name)).map (·.2)

/-- Dictionary assignment `record_files_by_physical[name] = entry`. -/
def cache_set (cache : List (String × cache_entry)) (name : String) (entry : cache_entry) :
    List (String × cache_entry) :=
  (name, entry) :: cache

/-- Whether a physical name exists on disk, and if so its branch file. -/
def env_branch (env : db_env) (name : String) : Option (Option String) :=
  (env.find? (fun e => e.1 == name)).map (·.2)

/-- `vss_database.open_records_file` together with the only part of
`vss_file_item_file.__init__` that feeds back into it: a cached
`NotImplemented` slot raises `VssFileNotFoundException`; a cached file is
returned; otherwise the slot is set to the in-progress sentinel and the item
file is constructed - its data file must exist (else `open_data_file` raises
`VssFileNotFoundException`, which propagates with the sentinel left in
place), and a non-empty `branch_file` triggers a recursive open whose
exception, if any, also propagates out of the constructor.  The `Nat` fuel
only bounds the recursion depth; exhausting it yields `.outOfFuel`. -/
def open_records_file (env : db_env) :
    Nat → List (String × cache_entry) → String →
    Except DbErr db_file × List (String × cache_entry)
  | 0, cache, _ => (.error .outOfFuel, cache)
  | fuel + 1, cache, name =>
      match cache_get cache name with
      | some .inProgress => (.error .fileNotFound, cache)
      | some (.loaded f) => (.ok f, cache)
      | none =>
          let cache1 := cache_set cache name .inProgress
          match env_branch env name with
          | none => (.error .fileNotFound, cache1)
          | some none =>
              let f : db_file := ⟨name, none⟩
              (.ok f, cache_set cache1 name (.loaded f))
          | some (some bname) =>
              match open_records_file env fuel cache1 bname with
              | (.error e, cache2) => (.error e, cache2)
              | (.ok p, cache2) =>
                  let f : db_file := ⟨name, some p.name⟩
                  (.ok f, cache_set cache2 name (.loaded f))

/-- The number of on-disk files not yet present in the cache: the recursion
measure of `open_records_file`. -/
def open_measure (env : db_env) (cache : List (String × cache_entry)) : Nat :=
  (env.filter (fun e => cache_get cache e.1 == none)).length

/- ===================== vss_file_item_file.build_revisions ===================== -/

/-- The file revision actions that `vss_file_revision_factory` recognizes
(`file_revision_class_dict` in `vss_revision.py`). -/
inductive file_rev_action where
  | label
  | createFile
  | createBranch
  | checkinFile
  | archiveFile
deriving DecidableEq, Repr

/-- One record of a file's revision chain, as consumed by `build_revisions`:
its revision number, its action, and for Checkin revisions the delta record
(if `prev_delta_offset > 0`). -/
structure file_rev_record where
  revision_num : Nat
  action : file_rev_action
  delta : Option (List vss_delta_operation)
deriving DecidableEq, Repr

/-- `set_revision_data` for the revision object made from `r`: the base class
stores the payload and returns it; `vss_checkin_revision` additionally pushes
the payload through `apply_delta`.  Returns `(stored revision_data, returned
payload)`. -/
def set_revision_data (r : file_rev_record) (data : List Nat) :
    Option (List Nat × List Nat) :=
  match r.action, r.delta with
  | .checkinFile, some ops => (vss_delta_record.apply_delta ops data).map (fun d => (data, d))
  | _, _ => some (data, data)

/-- The loop state of `build_revisions`: the running payload `data`, the
`prev_data` snapshot, and the `(revision_num, action, revision_data)`
assignments made so far, in processing order. -/
structure build_state where
  data : List Nat
  prev_data : List Nat
  assigned : List (Nat × file_rev_action × List Nat)
deriving DecidableEq, Repr

/-- One turn of the `while offset > 0` loop of the file variant of
`build_revisions`: substitute `prev_data` for an empty payload at revision 1,
else snapshot the payload at a Checkin revision, then run
`set_revision_data`. -/
def build_revisions_step (s : build_state) (r : file_rev_record) : Option build_state :=
  let data1 := if r.revision_num = 1 ∧ s.data = [] then s.prev_data else s.data
  let prev1 :=
    if r.revision_num = 1 ∧ s.data = [] then s.prev_data
    else if r.action = .checkinFile then s.data
    else s.prev_data
  (set_revision_data r data1).map (fun p => ⟨p.2, prev1, s.assigned ++ [(r.revision_num, r.action, p.1)]⟩)

/-- The whole walk of the revision chain (records listed in the order the
loop visits them, i.e. last revision first), starting from the latest payload
`d0`; `prev_data` is initialized to the same `d0`. -/
def build_revisions_run (d0 : List Nat) (rs : List file_rev_record) : Option build_state :=
  rs.foldlM build_revisions_step ⟨d0, d0, []⟩

/-- The payload recorded at the most recent Checkin revision among the
assignments, or the initial payload if no Checkin has been processed. -/
def last_checkin_data (d0 : List Nat) (entries : List (Nat × file_rev_action × List Nat)) :
    List Nat :=
  match (entries.filter (fun e => e.2.1 == file_rev_action.checkinFile)).getLast? with
  | some e => e.2.2
  | none => d0

/- ===================== theorems ===================== -/

/- An instance needed to evaluate concrete results in witness proofs. -/
deriving instance DecidableEq for Except

/- ---- crc32: the table-driven fold equals the bitwise reflected CRC-32 ---- -/

theorem and_one_mod_pow (x k : Nat) : (x % 2 ^ (k + 1)) &&& 1 = x &&& 1 := by
  rw [Nat.and_one_is_mod, Nat.and_one_is_mod, Nat.mod_mod_of_dvd]
  exact dvd_pow_self 2 (Nat.succ_ne_zero k)

theorem crc32_bit_step_low (k x : Nat) :
    crc32_bit_step x % 2 ^ k = crc32_bit_step (x % 2 ^ (k + 1)) % 2 ^ k := by
  unfold crc32_bit_step
  rw [and_one_mod_pow]
  split
  · apply Nat.eq_of_testBit_eq
    intro i
    simp only [Nat.testBit_mod_two_pow, Nat.testBit_xor, Nat.testBit_shiftRight]
    by_cases h : i < k
    · simp [h, Nat.lt_succ_of_lt, show 1 + i < k + 1 by omega]
    · simp [h]
  · apply Nat.eq_of_testBit_eq
    intro i
    simp only [Nat.testBit_mod_two_pow, Nat.testBit_shiftRight]
    by_cases h : i < k
    · simp [h, show 1 + i < k + 1 by omega]
    · simp [h]

theorem crc32_bit_step_high (k x : Nat) :
    crc32_bit_step x >>> k = (x >>> (k + 1)) ^^^ (crc32_bit_step (x % 2 ^ (k + 1)) >>> k) := by
  unfold crc32_bit_step
  rw [and_one_mod_pow]
  split
  · apply Nat.eq_of_testBit_eq
    intro i
    simp only [Nat.testBit_xor, Nat.testBit_shiftRight, Nat.testBit_mod_two_pow]
    have h1 : decide (1 + (k + i) < k + 1) = false := decide_eq_false (by omega)
    simp only [h1, Bool.false_and, Bool.xor_false]
    have h2 : 1 + (k + i) = k + 1 + i := by omega
    rw [h2]
    cases x.testBit (k + 1 + i) <;> cases crc32_POLY.testBit (k + i) <;> rfl
  · apply Nat.eq_of_testBit_eq
    intro i
    simp only [Nat.testBit_xor, Nat.testBit_shiftRight, Nat.testBit_mod_two_pow]
    have h1 : decide (1 + (k + i) < k + 1) = false := decide_eq_false (by omega)
    simp only [h1, Bool.false_and, Bool.xor_false]
    have h2 : 1 + (k + i) = k + 1 + i := by omega
    rw [h2]

theorem crc32_iter_split (k x : Nat) :
    crc32_iter k x = (x >>> k) ^^^ crc32_iter k (x % 2 ^ k) := by
  induction k generalizing x with
  | zero => simp [crc32_iter, Nat.mod_one]
  | succ k ih =>
      show crc32_iter k (crc32_bit_step x) = _
      rw [ih (crc32_bit_step x), crc32_bit_step_high k x, crc32_bit_step_low k x,
        Nat.xor_assoc]
      have : crc32_iter (k + 1) (x % 2 ^ (k + 1)) =
          crc32_iter k (crc32_bit_step (x % 2 ^ (k + 1))) := rfl
      rw [this, ih (crc32_bit_step (x % 2 ^ (k + 1)))]

theorem xor_shiftRight_of_lt {b : Nat} (crc : Nat) (hb : b < 256) :
    (crc ^^^ b) >>> 8 = crc >>> 8 := by
  apply Nat.eq_of_testBit_eq
  intro i
  simp only [Nat.testBit_shiftRight, Nat.testBit_xor]
  have : b.testBit (8 + i) = false := by
    apply Nat.testBit_lt_two_pow
    calc b < 256 := hb
    _ = 2 ^ 8 := by norm_num
    _ ≤ 2 ^ (8 + i) := Nat.pow_le_pow_right (by norm_num) (by omega)
  simp [this]

theorem crc32_table_step_eq (crc b : Nat) (hb : b < 256) :
    (crc >>> 8) ^^^ crc32_table (0xFF &&& (crc ^^^ b)) = crc32_spec_byte crc b := by
  have hmask : 0xFF &&& (crc ^^^ b) = (crc ^^^ b) % 2 ^ 8 := by
    rw [Nat.and_comm]
    have : (0xFF : Nat) = 2 ^ 8 - 1 := by norm_num
    rw [this, Nat.and_pow_two_sub_one_eq_mod]
  rw [hmask]
  unfold crc32_spec_byte crc32_table
  rw [crc32_iter_split 8 (crc ^^^ b), xor_shiftRight_of_lt crc hb]

theorem crc32_foldl_eq (data : List Nat) (init : Nat) (hb : ∀ b ∈ data, b < 256) :
    data.foldl (fun crc b => (crc >>> 8) ^^^ crc32_table (0xFF &&& (crc ^^^ b))) init =
      data.foldl crc32_spec_byte init := by
  induction data generalizing init with
  | nil => rfl
  | cons b rest ih =>
      simp only [List.foldl_cons]
      rw [crc32_table_step_eq init b (hb b (List.mem_cons_self b rest))]
      exact ih _ (fun x hx => hb x (List.mem_cons_of_mem b hx))

theorem crc32_calculate_eq_spec (data : List Nat) (hb : ∀ b ∈ data, b < 256) :
    crc32_calculate data 0 0 = crc32_spec data := by
  unfold crc32_calculate crc32_spec
  rw [crc32_foldl_eq data 0 hb, Nat.xor_zero]

/- ---- reader window lemmas ---- -/

theorem window_drop_take (r : vss_record_reader) (off n : Nat) (h : off + n ≤ r.length) :
    ((r.window).drop off).take n = (r.data.drop (off + r.slice_offset)).take n := by
  unfold vss_record_reader.window
  rw [List.drop_take, List.drop_drop, List.take_take]
  rw [Nat.add_comm r.slice_offset off]
  congr 1
  omega

theorem read_bytes_at_ok (r : vss_record_reader) (off n : Nat) (bs : List Nat)
    (r2 : vss_record_reader) (h : r.read_bytes_at off n = (.ok bs, r2)) :
    bs = ((r.window).drop off).take n ∧ r2 = r ∧ off + n ≤ r.length := by
  unfold vss_record_reader.read_bytes_at vss_record_reader.check_read_at at h
  by_cases hb : off + n > r.length
  · simp [hb] at h
  · simp only [hb, reduceIte] at h
    cases h
    refine ⟨?_, rfl, by omega⟩
    rw [window_drop_take r off n (by omega)]

theorem read_bytes_ok (r : vss_record_reader) (n : Nat) (bs : List Nat)
    (r2 : vss_record_reader) (h : r.read_bytes n = (.ok bs, r2)) :
    bs = ((r.window).drop r.offset).take n ∧
      r2 = { r with offset := r.offset + n } ∧ r.offset + n ≤ r.length := by
  unfold vss_record_reader.read_bytes vss_record_reader.check_read at h
  by_cases hb : r.offset + n > r.length
  · simp [hb] at h
  · simp only [hb, reduceIte] at h
    cases h
    refine ⟨?_, rfl, by omega⟩
    rw [window_drop_take r r.offset n (by omega)]

theorem read_bytes_err (r : vss_record_reader) (n : Nat) :
    ((r.read_bytes n).1 = .error .endOfBuffer ↔ r.offset + n > r.length) ∧
      (∀ e, (r.read_bytes n).1 = .error e → e = .endOfBuffer) ∧
      ((r.read_bytes n).1 = .error .endOfBuffer → (r.read_bytes n).2 = r) := by
  unfold vss_record_reader.read_bytes vss_record_reader.check_read
  by_cases hb : r.offset + n > r.length <;> simp [hb]

theorem read_bytes_at_err (r : vss_record_reader) (off n : Nat) :
    ((r.read_bytes_at off n).1 = .error .endOfBuffer ↔ off + n > r.length) ∧
      (∀ e, (r.read_bytes_at off n).1 = .error e → e = .endOfBuffer) ∧
      (r.read_bytes_at off n).2 = r := by
  unfold vss_record_reader.read_bytes_at vss_record_reader.check_read_at
  by_cases hb : off + n > r.length <;> simp [hb]

/-- C9: Every reader operation either stays inside the window
`data[slice_offset : slice_offset + length]` or fails with `EndOfBuffer`,
failing exactly when the effective position plus the requested count exceeds
`length`, and a failed operation leaves the reader unchanged. -/
theorem C9_reader_bounded_reads :
    (∀ (r : vss_record_reader) (n : Nat),
      ((r.read_bytes n).1 = .error .endOfBuffer ↔ r.offset + n > r.length) ∧
      ((r.read_bytes n).1 = .error .endOfBuffer → (r.read_bytes n).2 = r) ∧
      (∀ bs r2, r.read_bytes n = (.ok bs, r2) →
        bs = ((r.window).drop r.offset).take n ∧ r2 = { r with offset := r.offset + n })) ∧
    (∀ (r : vss_record_reader) (off n : Nat),
      ((r.read_bytes_at off n).1 = .error .endOfBuffer ↔ off + n > r.length) ∧
      ((r.read_bytes_at off n).2 = r) ∧
      (∀ bs r2, r.read_bytes_at off n = (.ok bs, r2) →
        bs = ((r.window).drop off).take n)) ∧
    (∀ (r : vss_record_reader) (n : Nat),
      ((r.skip n).1 = .error .endOfBuffer ↔ r.offset + n > r.length) ∧
      ((r.skip n).1 = .error .endOfBuffer → (r.skip n).2 = r) ∧
      ((r.skip n).1 = .ok () → (r.skip n).2 = { r with offset := r.offset + n })) ∧
    (∀ (r : vss_record_reader) (off size : Nat),
      ((r.unpack_at off size).1 = .error .endOfBuffer ↔ off + size > r.length) ∧
      ((r.unpack_at off size).2 = r) ∧
      (∀ bs r2, r.unpack_at off size = (.ok bs, r2) →
        bs = ((r.window).drop off).take size)) ∧
    (∀ (r : vss_record_reader) (size : Nat),
      ((r.unpack size).1 = .error .endOfBuffer ↔ r.offset + size > r.length) ∧
      ((r.unpack size).1 = .error .endOfBuffer → (r.unpack size).2 = r) ∧
      (∀ bs r2, r.unpack size = (.ok bs, r2) →
        bs = ((r.window).drop r.offset).take size ∧ r2 = { r with offset := r.offset + size })) := by
  refine ⟨?_, ?_, ?_, ?_, ?_⟩
  · intro r n
    refine ⟨(read_bytes_err r n).1, (read_bytes_err r n).2.2, ?_⟩
    intro bs r2 h
    exact ⟨(read_bytes_ok r n bs r2 h).1, (read_bytes_ok r n bs r2 h).2.1⟩
  · intro r off n
    refine ⟨(read_bytes_at_err r off n).1, (read_bytes_at_err r off n).2.2, ?_⟩
    intro bs r2 h
    exact (read_bytes_at_ok r off n bs r2 h).1
  · intro r n
    unfold vss_record_reader.skip vss_record_reader.check_read
    by_cases hb : r.offset + n > r.length <;> simp [hb]
  · intro r off size
    have he : r.unpack_at off size = r.read_bytes_at off size := rfl
    rw [he]
    refine ⟨(read_bytes_at_err r off size).1, (read_bytes_at_err r off size).2.2, ?_⟩
    intro bs r2 h
    exact (read_bytes_at_ok r off size bs r2 h).1
  · intro r size
    have he : r.unpack_at r.offset size = r.read_bytes_at r.offset size := rfl
    unfold vss_record_reader.unpack
    rw [he]
    unfold vss_record_reader.read_bytes_at vss_record_reader.check_read_at
    by_cases hb : r.offset + size > r.length
    · simp [hb]
    · simp only [hb, reduceIte]
      refine ⟨by simp, by simp, ?_⟩
      intro bs r2 h
      cases h
      exact ⟨by rw [window_drop_take r r.offset size (by omega)], rfl⟩

/-- C9 witness: the bound checks evaluated on a concrete reader. -/
theorem C9_witness :
    (((⟨[1,2,3,4], 0, 1, 4, "utf-8"⟩ : vss_record_reader).read_bytes 5).1 =
        .error .endOfBuffer → ((⟨[1,2,3,4], 0, 1, 4, "utf-8"⟩ : vss_record_reader).read_bytes 5).2 =
        ⟨[1,2,3,4], 0, 1, 4, "utf-8"⟩) ∧
    (((⟨[1,2,3,4], 0, 1, 4, "utf-8"⟩ : vss_record_reader).read_bytes 5).1 = .error .endOfBuffer) := by
  refine ⟨(C9_reader_bounded_reads.1 ⟨[1,2,3,4], 0, 1, 4, "utf-8"⟩ 5).2.1, ?_⟩
  exact (C9_reader_bounded_reads.1 ⟨[1,2,3,4], 0, 1, 4, "utf-8"⟩ 5).1.2 (by decide)

/-- C7: the alignment gates of the 16/32-bit reads.  The advancing variants
check `offset & 1` / `offset & 3`; the peek variants both check
`(offset + off) & 1`, so a 32-bit peek at an effective offset of 2 succeeds
even though 2 is not a multiple of 4 (divergence from the claim). -/
theorem C7_alignment_gates :
    (∀ (r : vss_record_reader) (u : Bool),
      ((r.read_int16 u).1 = .error .unalignedRead ↔ u = false ∧ r.offset &&& 1 ≠ 0)) ∧
    (∀ (r : vss_record_reader) (off : Nat) (u : Bool),
      ((r.read_int16_at off u).1 = .error .unalignedRead ↔
        u = false ∧ (r.offset + off) &&& 1 ≠ 0)) ∧
    (∀ (r : vss_record_reader) (u : Bool),
      ((r.read_int32 u).1 = .error .unalignedRead ↔ u = false ∧ r.offset &&& 3 ≠ 0)) ∧
    (∀ (r : vss_record_reader) (off : Nat) (u : Bool),
      ((r.read_int32_at off u).1 = .error .unalignedRead ↔
        u = false ∧ (r.offset + off) &&& 1 ≠ 0)) ∧
    (((⟨[1,2,3,4,5,6,7,8], 0, 0, 8, "utf-8"⟩ : vss_record_reader).read_int32_at 2 false).1 =
        .ok (to_signed (leNat [3,4,5,6]) 32) ∧ ¬((0 + 2) % 4 = 0)) := by
  refine ⟨?_, ?_, ?_, ?_, by decide, by decide⟩
  · intro r u
    unfold vss_record_reader.read_int16
    by_cases hg : u = false ∧ r.offset &&& 1 ≠ 0
    · rw [if_pos hg]
      simp [hg]
      obtain ⟨-, ha⟩ := hg
      rw [Nat.and_one_is_mod] at ha
      omega
    · simp only [hg, reduceIte]
      rcases hr : r.read_bytes 2 with ⟨res, r1⟩
      rcases res with e | bs
      · have : e = .endOfBuffer := (read_bytes_err r 2).2.1 e (by rw [hr])
        subst this
        simp [hg]
      · simp [hg]
  · intro r off u
    unfold vss_record_reader.read_int16_at
    by_cases hg : u = false ∧ (r.offset + off) &&& 1 ≠ 0
    · rw [if_pos hg]
      simp [hg]
      obtain ⟨-, ha⟩ := hg
      rw [Nat.and_one_is_mod] at ha
      omega
    · simp only [hg, reduceIte]
      rcases hr : r.read_bytes_at off 2 with ⟨res, r1⟩
      rcases res with e | bs
      · have : e = .endOfBuffer := (read_bytes_at_err r off 2).2.1 e (by rw [hr])
        subst this
        simp [hg]
      · simp [hg]
  · intro r u
    unfold vss_record_reader.read_int32
    by_cases hg : u = false ∧ r.offset &&& 3 ≠ 0
    · rw [if_pos hg]
      simp [hg]
    · simp only [hg, reduceIte]
      rcases hr : r.read_bytes 4 with ⟨res, r1⟩
      rcases res with e | bs
      · have : e = .endOfBuffer := (read_bytes_err r 4).2.1 e (by rw [hr])
        subst this
        simp [hg]
      · simp [hg]
  · intro r off u
    unfold vss_record_reader.read_int32_at
    by_cases hg : u = false ∧ (r.offset + off) &&& 1 ≠ 0
    · rw [if_pos hg]
      simp [hg]
      obtain ⟨-, ha⟩ := hg
      rw [Nat.and_one_is_mod] at ha
      omega
    · simp only [hg, reduceIte]
      rcases hr : r.read_bytes_at off 4 with ⟨res, r1⟩
      rcases res with e | bs
      · have : e = .endOfBuffer := (read_bytes_at_err r off 4).2.1 e (by rw [hr])
        subst this
        simp [hg]
      · simp [hg]

/-- C10: constructing a record header from a reader advances that reader to
`offset + 8 + length` (start of the next record), changes no other field,
records the original offset, and equips the header with a slice reader whose
window is exactly the record's `length`-byte payload; successful peeks
through the slice reader only produce payload bytes, and `crc16` never moves
a reader's offset. -/
theorem C10_header_read_frame :
    (∀ (r : vss_record_reader) (h : vss_record_header) (r' : vss_record_reader),
      vss_record_header.read r = .ok (h, r') →
      (r'.offset = r.offset + 8 + h.length ∧ r'.data = r.data ∧
       r'.slice_offset = r.slice_offset ∧ r'.length = r.length ∧ r'.encoding = r.encoding ∧
       h.offset = r.offset ∧
       h.reader.data = r.data ∧ h.reader.slice_offset = r.slice_offset + r.offset + 8 ∧
       h.reader.offset = 0 ∧ h.reader.length = h.length ∧ h.reader.encoding = r.encoding ∧
       h.reader.window = (r.data.drop (r.slice_offset + r.offset + 8)).take h.length ∧
       (∀ pos n bs r2, h.reader.read_bytes_at pos n = (.ok bs, r2) →
          bs = ((h.reader.window).drop pos).take n ∧ r2 = h.reader))) ∧
    (∀ (r : vss_record_reader) (len : Int), (r.crc16 len).2 = r) := by
  constructor
  · intro r h r' hread
    unfold vss_record_header.read at hread
    split at hread
    · exact absurd hread (by simp)
    · dsimp only at hread
      split at hread
      · exact absurd hread (by simp)
      · rw [Except.ok.injEq, Prod.mk.injEq] at hread
        obtain ⟨hh, hr'⟩ := hread
        subst hh hr'
        refine ⟨rfl, rfl, rfl, rfl, rfl, rfl, rfl, by dsimp; omega, rfl, rfl, rfl, ?_, ?_⟩
        · unfold vss_record_reader.window
          dsimp
          rw [show r.slice_offset + r.offset + 8 = r.offset + 8 + r.slice_offset by omega]
        · intro pos n bs r2 hp
          exact ⟨(read_bytes_at_ok _ pos n bs r2 hp).1, (read_bytes_at_ok _ pos n bs r2 hp).2.1⟩
  · intro r len
    unfold vss_record_reader.crc16
    split
    · rfl
    · split <;> rfl

/-- C10 witness: a concrete three-byte record parsed from offset 0. -/
theorem C10_witness :
    (⟨[3,0,0,0,77,67,0,0,8,9,10,42], 0, 11, 12, "utf-8"⟩ : vss_record_reader).offset =
      (⟨[3,0,0,0,77,67,0,0,8,9,10,42], 0, 0, 12, "utf-8"⟩ : vss_record_reader).offset + 8 +
      (⟨0, 3, [77,67], 0, 15595,
        ⟨[3,0,0,0,77,67,0,0,8,9,10,42], 8, 0, 3, "utf-8"⟩⟩ : vss_record_header).length :=
  (C10_header_read_frame.1 ⟨[3,0,0,0,77,67,0,0,8,9,10,42], 0, 0, 12, "utf-8"⟩
    ⟨0, 3, [77,67], 0, 15595, ⟨[3,0,0,0,77,67,0,0,8,9,10,42], 8, 0, 3, "utf-8"⟩⟩
    ⟨[3,0,0,0,77,67,0,0,8,9,10,42], 0, 11, 12, "utf-8"⟩ (by decide)).1

/-- If a reader sits at offset 0, its `crc16_value` over its whole window is
the spec-level folded CRC of the window. -/
theorem crc16_value_window (r : vss_record_reader) (h0 : r.offset = 0)
    (hb : ∀ b ∈ r.data, b < 256) :
    r.crc16_value r.length = crc16_spec r.window := by
  unfold vss_record_reader.crc16_value vss_record_reader.window crc16_spec
  rw [h0, Nat.zero_add]
  rw [crc32_calculate_eq_spec]
  intro b hbm
  exact hb b (List.mem_of_mem_drop (List.mem_of_mem_take hbm))

/-- C4: `crc16` computes the spec's folded reflected CRC-32 over the bytes it
walks, and `check_crc` fails exactly when the record is not a comment (`MC`)
record and its stored CRC differs from that computed value; an `MC` record
never fails the check. -/
theorem C4_crc16_and_check_crc :
    (∀ (r : vss_record_reader) (n : Nat),
      (∀ b ∈ (r.data.drop (r.offset + r.slice_offset)).take n, b < 256) →
      r.crc16_value n = crc16_spec ((r.data.drop (r.offset + r.slice_offset)).take n)) ∧
    (∀ (r : vss_record_reader) (h : vss_record_header) (r' : vss_record_reader),
      vss_record_header.read r = .ok (h, r') →
      (∀ b ∈ r.data, b < 256) →
      ((h.check_crc = .error .recordCrcMismatch ↔
          h.signature ≠ MC_SIGNATURE ∧ h.file_crc ≠ crc16_spec h.reader.window) ∧
       (h.signature = MC_SIGNATURE → h.check_crc = .ok ()))) := by
  constructor
  · intro r n hb
    unfold vss_record_reader.crc16_value crc16_spec
    rw [crc32_calculate_eq_spec _ hb]
  · intro r h r' hread hbytes
    have hcrc : h.actual_crc = crc16_spec h.reader.window := by
      unfold vss_record_header.read at hread
      split at hread
      · exact absurd hread (by simp)
      · dsimp only at hread
        split at hread
        · exact absurd hread (by simp)
        · rw [Except.ok.injEq, Prod.mk.injEq] at hread
          obtain ⟨hh, hr'⟩ := hread
          subst hh
          dsimp only
          exact crc16_value_window _ rfl hbytes
    unfold vss_record_header.check_crc
    rw [hcrc]
    constructor
    · by_cases hc : h.signature ≠ MC_SIGNATURE ∧ h.file_crc ≠ crc16_spec h.reader.window
      · rw [if_pos hc]
        simp [hc]
      · rw [if_neg hc]
        simp [hc]
    · intro hmc
      simp [hmc]

/-- C4 witness: the CRC identity at a concrete three-byte payload, and the
`MC`-record exemption at a concrete comment record. -/
theorem C4_witness :
    vss_record_reader.crc16_value ⟨[8, 9, 10], 0, 0, 3, "utf-8"⟩ 3 =
      crc16_spec (([8, 9, 10].drop (0 + 0)).take 3) ∧
    vss_record_header.check_crc ⟨0, 3, [77, 67], 0, 15595,
      ⟨[3,0,0,0,77,67,0,0,8,9,10,42], 8, 0, 3, "utf-8"⟩⟩ = .ok () := by
  constructor
  · exact C4_crc16_and_check_crc.1 ⟨[8, 9, 10], 0, 0, 3, "utf-8"⟩ 3 (by decide)
  · exact (C4_crc16_and_check_crc.2 ⟨[3,0,0,0,77,67,0,0,8,9,10,42], 0, 0, 12, "utf-8"⟩
      ⟨0, 3, [77, 67], 0, 15595, ⟨[3,0,0,0,77,67,0,0,8,9,10,42], 8, 0, 3, "utf-8"⟩⟩
      ⟨[3,0,0,0,77,67,0,0,8,9,10,42], 0, 11, 12, "utf-8"⟩ (by decide) (by decide)).2 (by decide)

/- ---- delta record: parse/encode round trip and apply ---- -/

theorem leNat_le16 (x : Nat) (h : x < 65536) : leNat (le16bytes x) = x := by
  simp only [le16bytes, leNat]
  omega

theorem leNat_le32 (x : Nat) (h : x < 4294967296) : leNat (le32bytes x) = x := by
  simp only [le32bytes, leNat]
  omega

theorem read_delta_ops_stop (junk : List Nat) :
    read_delta_ops (delta_stop_bytes ++ junk) = some [] := by
  have : delta_stop_bytes ++ junk =
      2 :: 0 :: 0 :: 0 :: 0 :: 0 :: 0 :: 0 :: 0 :: 0 :: 0 :: 0 :: junk := by
    simp [delta_stop_bytes, le16bytes, le32bytes]
  rw [this, read_delta_ops]
  simp [leNat]

theorem read_delta_ops_cons (op : vss_delta_operation) (R : List Nat) (hwf : wf_delta_op op) :
    read_delta_ops (encode_delta_op op ++ R) = (read_delta_ops R).map (op :: ·) := by
  obtain ⟨c, s, o, l, dt⟩ := op
  obtain ⟨hc16, hc2, hs16, ho32, hl32, hdata⟩ := hwf
  by_cases hc0 : c = 0
  · subst hc0
    have hd : ∃ d, dt = some d ∧ d.length = l := by
      unfold delta_data_ok at hdata
      simp only [reduceIte] at hdata
      cases dt with
      | none => simp at hdata
      | some d => exact ⟨d, rfl, by simpa using hdata⟩
    obtain ⟨d, hdt, hdl⟩ := hd
    subst hdt
    have hbs : encode_delta_op ⟨0, s, o, l, some d⟩ ++ R =
        0 :: 0 :: (s % 256) :: (s / 256 % 256) :: (o % 256) :: (o / 256 % 256) ::
        (o / 65536 % 256) :: (o / 16777216 % 256) :: (l % 256) :: (l / 256 % 256) ::
        (l / 65536 % 256) :: (l / 16777216 % 256) :: (d ++ R) := by
      simp [encode_delta_op, le16bytes, le32bytes]
    rw [hbs, read_delta_ops]
    rw [dif_neg (by simp)]
    dsimp only
    simp only [List.take_succ_cons, List.take_zero, List.drop_succ_cons, List.drop_zero]
    have hl : leNat [l % 256, l / 256 % 256, l / 65536 % 256, l / 16777216 % 256] = l :=
      leNat_le32 l (by simpa using hl32)
    have hs' : leNat [s % 256, s / 256 % 256] = s := leNat_le16 s (by simpa using hs16)
    have ho' : leNat [o % 256, o / 256 % 256, o / 65536 % 256, o / 16777216 % 256] = o :=
      leNat_le32 o (by simpa using ho32)
    have h0 : leNat [0, 0] = 0 := by norm_num [leNat]
    simp only [h0, hl, hs', ho', if_true]
    rw [dif_neg (by simp only [List.length_append, hdl]; omega)]
    rw [show (12 + l) = l + 12 from Nat.add_comm 12 l]
    simp only [List.drop_succ_cons]
    rw [← hdl, List.drop_left, List.take_left]
    cases hR : read_delta_ops R with
    | none => simp
    | some ops => simp
  · have hdt : dt = none := by
      unfold delta_data_ok at hdata
      rw [if_neg hc0] at hdata
      simpa using hdata
    subst hdt
    have hbs : encode_delta_op ⟨c, s, o, l, none⟩ ++ R =
        (c % 256) :: (c / 256 % 256) :: (s % 256) :: (s / 256 % 256) ::
        (o % 256) :: (o / 256 % 256) :: (o / 65536 % 256) :: (o / 16777216 % 256) ::
        (l % 256) :: (l / 256 % 256) :: (l / 65536 % 256) :: (l / 16777216 % 256) :: R := by
      simp [encode_delta_op, le16bytes, le32bytes, hc0]
    rw [hbs, read_delta_ops]
    rw [dif_neg (by simp)]
    dsimp only
    simp only [List.take_succ_cons, List.take_zero, List.drop_succ_cons, List.drop_zero]
    have hc' : leNat [c % 256, c / 256 % 256] = c := leNat_le16 c (by simpa using hc16)
    have hl : leNat [l % 256, l / 256 % 256, l / 65536 % 256, l / 16777216 % 256] = l :=
      leNat_le32 l (by simpa using hl32)
    have hs' : leNat [s % 256, s / 256 % 256] = s := leNat_le16 s (by simpa using hs16)
    have ho' : leNat [o % 256, o / 256 % 256, o / 65536 % 256, o / 16777216 % 256] = o :=
      leNat_le32 o (by simpa using ho32)
    simp only [hc', hl, hs', ho']
    rw [if_neg hc0]
    rw [if_neg (by simpa using hc2)]
    cases hR : read_delta_ops R with
    | none => simp
    | some ops => simp

/-- C2: parsing an FD record body consumes the encoded operations in file
order up to but excluding the first Stop (command 2) operation - a WriteLog
operation also consuming its `length` data bytes - and `apply_delta`
concatenates, in stored order, each operation's output: the stored data for
WriteLog, `base_data[offset : offset + length]` for WriteSuccessor. -/
theorem C2_delta_parse_and_apply :
    (∀ (ops : List vss_delta_operation) (junk : List Nat),
      (∀ op ∈ ops, wf_delta_op op) →
      read_delta_ops ((ops.map encode_delta_op).flatten ++ delta_stop_bytes ++ junk) = some ops) ∧
    (∀ (ops : List vss_delta_operation) (base : List Nat),
      (∀ op ∈ ops, (op.command = 0 ∧ op.data ≠ none) ∨ op.command = 1) →
      vss_delta_record.apply_delta ops base =
        some ((ops.map (fun op =>
          if op.command = 0 then op.data.getD []
          else (base.drop op.offset).take op.length)).flatten)) := by
  constructor
  · intro ops junk hwf
    induction ops with
    | nil => simpa using read_delta_ops_stop junk
    | cons op rest ih =>
        have : ((op :: rest).map encode_delta_op).flatten ++ delta_stop_bytes ++ junk =
            encode_delta_op op ++ ((rest.map encode_delta_op).flatten ++ delta_stop_bytes ++ junk) := by
          simp [List.append_assoc]
        rw [this, read_delta_ops_cons op _ (hwf op (List.mem_cons_self op rest)),
          ih (fun x hx => hwf x (List.mem_cons_of_mem op hx))]
        rfl
  · intro ops base hcmd
    induction ops with
    | nil => rfl
    | cons op rest ih =>
        have hop := hcmd op (List.mem_cons_self op rest)
        have htail := ih (fun x hx => hcmd x (List.mem_cons_of_mem op hx))
        unfold vss_delta_record.apply_delta
        rcases hop with ⟨h0, hdata⟩ | h1
        · rcases hd : op.data with - | d
          · exact absurd hd hdata
          · unfold vss_delta_operation.apply
            rw [if_pos h0]
            rw [hd, htail]
            simp [h0, hd]
        · unfold vss_delta_operation.apply
          have h01 : op.command ≠ 0 := by omega
          rw [if_neg h01, if_pos h1]
          rw [htail]
          simp [h01]

/-- C2 witness: a two-operation stream (WriteLog `[9, 9]`, then WriteSuccessor
of two bytes at offset 1) parsed back from its encoding and applied to a
concrete base. -/
theorem C2_witness :
    read_delta_ops (([⟨0, 0, 0, 2, some [9, 9]⟩, ⟨1, 0, 1, 2, none⟩].map encode_delta_op).flatten ++
        delta_stop_bytes ++ [1, 2, 3]) =
      some [⟨0, 0, 0, 2, some [9, 9]⟩, ⟨1, 0, 1, 2, none⟩] ∧
    vss_delta_record.apply_delta [⟨0, 0, 0, 2, some [9, 9]⟩, ⟨1, 0, 1, 2, none⟩] [5, 6, 7, 8] =
      some [9, 9, 6, 7] := by
  constructor
  · exact C2_delta_parse_and_apply.1 [⟨0, 0, 0, 2, some [9, 9]⟩, ⟨1, 0, 1, 2, none⟩]
      [1, 2, 3] (by decide)
  · have := C2_delta_parse_and_apply.2 [⟨0, 0, 0, 2, some [9, 9]⟩, ⟨1, 0, 1, 2, none⟩]
      [5, 6, 7, 8] (by decide)
    rw [this]
    rfl

/- ---- build_revisions: the empty-first-revision special case ---- -/

theorem set_revision_data_stored (r : file_rev_record) (data : List Nat)
    (p : List Nat × List Nat) (h : set_revision_data r data = some p) : p.1 = data := by
  unfold set_revision_data at h
  rcases r with ⟨n, a, d⟩
  rcases a <;> rcases d <;> try (cases h; rfl)
  obtain ⟨w, hw, hp⟩ := Option.map_eq_some'.1 h
  rw [← hp]

theorem last_checkin_data_append (d0 : List Nat) (xs : List (Nat × file_rev_action × List Nat))
    (n : Nat) (a : file_rev_action) (v : List Nat) :
    last_checkin_data d0 (xs ++ [(n, a, v)]) =
      if a = .checkinFile then v else last_checkin_data d0 xs := by
  unfold last_checkin_data
  rw [List.filter_append]
  by_cases ha : a = .checkinFile
  · simp [ha, List.getLast?_append]
  · simp [ha]

theorem build_step_prev_data (d0 : List Nat) (s s1 : build_state) (r : file_rev_record)
    (hstep : build_revisions_step s r = some s1)
    (hinv : s.prev_data = last_checkin_data d0 s.assigned) :
    s1.prev_data = last_checkin_data d0 s1.assigned := by
  unfold build_revisions_step at hstep
  obtain ⟨p, hp, hs1⟩ := Option.map_eq_some'.1 hstep
  have hstored := set_revision_data_stored r _ p hp
  subst hs1
  dsimp only
  rw [last_checkin_data_append]
  by_cases hsub : r.revision_num = 1 ∧ s.data = []
  · rw [if_pos hsub] at hstored
    by_cases ha : r.action = .checkinFile <;> simp [hsub, ha, hstored, hinv]
  · rw [if_neg hsub] at hstored
    by_cases ha : r.action = .checkinFile <;> simp [hsub, ha, hstored, hinv]

theorem build_run_prev_data (rs : List file_rev_record) (d0 : List Nat)
    (s0 s : build_state) (hinv : s0.prev_data = last_checkin_data d0 s0.assigned)
    (hrun : rs.foldlM build_revisions_step s0 = some s) :
    s.prev_data = last_checkin_data d0 s.assigned := by
  induction rs generalizing s0 with
  | nil =>
      cases hrun
      exact hinv
  | cons r rest ih =>
      rw [List.foldlM_cons] at hrun
      cases hstep : build_revisions_step s0 r with
      | none => rw [hstep] at hrun; cases hrun
      | some s1 =>
          rw [hstep] at hrun
          exact ih s1 (build_step_prev_data d0 s0 s1 r hstep hinv) hrun

/-- C6: in the file-variant `build_revisions` walk, when the revision numbered
1 is processed while the running payload is empty, its `revision_data` is set
to `prev_data` - which equals the payload recorded at the most recent Checkin
revision processed, or the initial payload when none was - and when the
running payload is non-empty at revision 1, `revision_data` is the running
payload itself (no substitution). -/
theorem C6_empty_first_revision_substitution
    (d0 : List Nat) (rs : List file_rev_record) (i : Nat) (r : file_rev_record)
    (s s' : build_state)
    (_hrec : rs[i]? = some r) (hnum : r.revision_num = 1)
    (hpre : build_revisions_run d0 (rs.take i) = some s)
    (hstep : build_revisions_step s r = some s') :
    (s.data = [] →
      s'.assigned.getLast? = some (1, r.action, s.prev_data) ∧
      s.prev_data = last_checkin_data d0 s.assigned) ∧
    (s.data ≠ [] →
      s'.assigned.getLast? = some (1, r.action, s.data)) := by
  have hinv : s.prev_data = last_checkin_data d0 s.assigned := by
    apply build_run_prev_data (rs.take i) d0 ⟨d0, d0, []⟩ s _ hpre
    unfold last_checkin_data
    simp
  unfold build_revisions_step at hstep
  obtain ⟨p, hp, hs'⟩ := Option.map_eq_some'.1 hstep
  have hstored := set_revision_data_stored r _ p hp
  subst hs'
  constructor
  · intro hdata
    rw [if_pos ⟨hnum, hdata⟩] at hstored
    refine ⟨?_, hinv⟩
    dsimp only
    rw [List.getLast?_concat, hstored, hnum]
  · intro hdata
    have hns : ¬(r.revision_num = 1 ∧ s.data = []) := by
      intro hc
      exact hdata hc.2
    rw [if_neg hns] at hstored
    dsimp only
    rw [List.getLast?_concat, hstored, hnum]

/-- C6 witness: a two-record chain - a Checkin at revision 2 whose delta
rewinds the payload `[7]` to empty, then revision 1 reached with the empty
payload - where revision 1 stores the Checkin's payload `[7]`. -/
theorem C6_witness :
    (⟨[7], [7], [(2, .checkinFile, [7]), (1, .label, [7])]⟩ : build_state).assigned.getLast? =
        some (1, file_rev_action.label, [7]) ∧
      ([7] : List Nat) = last_checkin_data [7] [(2, .checkinFile, [7])] :=
  (C6_empty_first_revision_substitution [7]
    [⟨2, .checkinFile, some [⟨0, 0, 0, 0, some []⟩]⟩, ⟨1, .label, none⟩] 1
    ⟨1, .label, none⟩ ⟨[], [7], [(2, .checkinFile, [7])]⟩
    ⟨[7], [7], [(2, .checkinFile, [7]), (1, .label, [7])]⟩
    (by decide) rfl (by decide) (by decide)).1 (by decide)

/- ---- open_records_file: cycle handling and termination ---- -/

theorem cache_get_set (cache : List (String × cache_entry)) (name m : String)
    (e : cache_entry) :
    cache_get (cache_set cache name e) m = if m = name then some e else cache_get cache m := by
  unfold cache_get cache_set
  by_cases h : m = name
  · subst h
    simp [List.find?_cons, beq_self_eq_true]
  · have hb : (name == m) = false := by
      simp [beq_eq_false_iff_ne]
      exact fun hc => h hc.symm
    rw [if_neg h]
    simp [List.find?_cons, hb]

theorem open_measure_set_le (env : db_env) (cache : List (String × cache_entry))
    (name : String) (e : cache_entry) :
    open_measure env (cache_set cache name e) ≤ open_measure env cache := by
  unfold open_measure
  apply List.Sublist.length_le
  apply List.monotone_filter_right
  intro a ha
  rw [cache_get_set] at ha
  by_cases hn : a.1 = name
  · rw [if_pos hn] at ha
    simp at ha
  · rw [if_neg hn] at ha
    exact ha

theorem open_measure_set_lt (env : db_env) (cache : List (String × cache_entry))
    (name : String) (e : cache_entry) (b : Option String)
    (henv : env_branch env name = some b) (hnone : cache_get cache name = none) :
    open_measure env (cache_set cache name e) < open_measure env cache := by
  induction env with
  | nil => simp [env_branch] at henv
  | cons hd tl ih =>
      unfold env_branch at henv
      unfold open_measure
      rw [List.filter_cons, List.filter_cons]
      by_cases hh : hd.1 = name
      · have hold : (cache_get cache hd.1 == none) = true := by
          rw [hh, hnone]
          rfl
        have hnew : (cache_get (cache_set cache name e) hd.1 == none) = false := by
          rw [hh, cache_get_set, if_pos rfl]
          rfl
        rw [hold, hnew]
        simp only [Bool.false_eq_true, if_false, if_true, List.length_cons]
        have := open_measure_set_le tl cache name e
        unfold open_measure at this
        omega
      · have hsame : (cache_get (cache_set cache name e) hd.1 == none) =
            (cache_get cache hd.1 == none) := by
          rw [cache_get_set, if_neg hh]
        rw [hsame]
        have henv' : env_branch tl name = some b := by
          rw [List.find?_cons] at henv
          have : (hd.1 == name) = false := by
            simp [beq_eq_false_iff_ne, hh]
          rw [this] at henv
          exact henv
        have := ih henv'
        unfold open_measure at this
        by_cases hc : (cache_get cache hd.1 == none) = true
        · simp only [hc, if_true, List.length_cons]
          omega
        · simp only [eq_false_of_ne_true hc, Bool.false_eq_true, if_false]
          omega

theorem open_records_file_no_fuel_exhaustion (env : db_env) :
    ∀ (fuel : Nat) (cache : List (String × cache_entry)) (name : String),
      open_measure env cache < fuel →
      (open_records_file env fuel cache name).1 ≠ .error .outOfFuel := by
  intro fuel
  induction fuel with
  | zero => intro cache name h; omega
  | succ fuel ih =>
      intro cache name hm
      unfold open_records_file
      cases hcg : cache_get cache name with
      | some entry =>
          cases entry <;> simp
      | none =>
          cases henv : env_branch env name with
          | none => simp
          | some b =>
              cases b with
              | none => simp
              | some bname =>
                  dsimp only
                  have hlt : open_measure env (cache_set cache name .inProgress) < fuel := by
                    have := open_measure_set_lt env cache name .inProgress _ henv hcg
                    omega
                  have hrec := ih (cache_set cache name .inProgress) bname hlt
                  rcases hopen : open_records_file env fuel (cache_set cache name .inProgress) bname
                    with ⟨res, cache2⟩
                  rw [hopen] at hrec
                  cases res with
                  | error e =>
                      dsimp only
                      intro hcontra
                      exact hrec hcontra
                  | ok p => simp

/-- C5: branch-cycle handling in `open_records_file`.  (1) Opening terminates:
with fuel exceeding the number of not-yet-cached on-disk files, the recursion
never exhausts its fuel, because each recursive step first marks its name
in-progress.  (2) A request for a name whose load is in progress does not
return a sentinel value: it raises `VssFileNotFoundException` and leaves the
cache unchanged.  (3) On the two-file cycle A -> B -> A, opening A therefore
fails wholesale with `VssFileNotFoundException` (no item file with an
unresolvable branch parent is produced), with both names left marked
in-progress. -/
theorem C5_open_records_file_cycle :
    (∀ (env : db_env) (fuel : Nat) (cache : List (String × cache_entry)) (name : String),
      open_measure env cache < fuel →
      (open_records_file env fuel cache name).1 ≠ .error .outOfFuel) ∧
    (∀ (env : db_env) (fuel : Nat) (cache : List (String × cache_entry)) (name : String),
      cache_get cache name = some .inProgress →
      open_records_file env (fuel + 1) cache name = (.error .fileNotFound, cache)) ∧
    (open_records_file [("A", some "B"), ("B", some "A")] 3 [] "A" =
      (.error .fileNotFound, [("B", .inProgress), ("A", .inProgress)])) := by
  refine ⟨open_records_file_no_fuel_exhaustion, ?_, by decide⟩
  intro env fuel cache name hip
  unfold open_records_file
  rw [hip]

/-- C5 witness: termination discharged on the cyclic two-file universe. -/
theorem C5_witness :
    (open_records_file [("A", some "B"), ("B", some "A")] 3 [] "A").1 ≠
      .error .outOfFuel ∧
    open_records_file [("A", some "B"), ("B", some "A")] 1
        [("A", cache_entry.inProgress)] "A" =
      (.error .fileNotFound, [("A", cache_entry.inProgress)]) := by
  constructor
  · exact C5_open_records_file_cycle.1 [("A", some "B"), ("B", some "A")] 3 [] "A" (by decide)
  · exact C5_open_records_file_cycle.2.1 [("A", some "B"), ("B", some "A")] 0
      [("A", cache_entry.inProgress)] "A" (by decide)

/-- Structural induction for the nested `vss_file_item_file` type. -/
theorem vss_file_item_file.ind_on (P : vss_file_item_file → Prop)
    (h : ∀ num first revs bp, (∀ p, bp = some (some p) → P p) → P (.mk num first revs bp)) :
    ∀ f : vss_file_item_file, P f
  | .mk num first revs none => h num first revs none (fun p hp => by cases hp)
  | .mk num first revs (some none) => h num first revs (some none) (fun p hp => by cases hp)
  | .mk num first revs (some (some q)) =>
      h num first revs (some (some q)) (fun p hp => by
        rw [Option.some.injEq, Option.some.injEq] at hp
        rw [← hp]
        exact vss_file_item_file.ind_on P h q)

/-- C3 (amended): with a well-formed item, `get_revision` raises
`ArgumentOutOfRange` exactly when the revision array is non-empty and the
version lies outside `[1, num_revisions]` (an empty array short-circuits to
`None` before the range check); in-range versions at or above
`first_revision` return the locally stored slot at `version -
first_revision`; versions below `first_revision` delegate to the branch
parent, yielding `None` when the parent is Python `None` or the
`NotImplemented` sentinel; and no `IndexError` is possible. -/
theorem C3_get_revision_amended :
    ∀ (f : vss_file_item_file) (version : Int), f.wf →
      ((f.get_revision version = .error .argumentOutOfRange ↔
        f.revisions ≠ [] ∧ (version < 1 ∨ version > f.num_revisions)) ∧
       (f.revisions ≠ [] → f.first_revision ≤ version → version ≤ f.num_revisions →
        f.get_revision version = .ok (f.revisions.getD (version - f.first_revision).toNat none)) ∧
       ((f.branch_parent = none ∨ f.branch_parent = some none) → f.revisions ≠ [] →
        1 ≤ version → version < f.first_revision → f.get_revision version = .ok none) ∧
       (∀ p, f.branch_parent = some (some p) → f.revisions ≠ [] →
        1 ≤ version → version < f.first_revision →
        f.get_revision version = p.get_revision version) ∧
       f.get_revision version ≠ .error .indexError) := by
  refine vss_file_item_file.ind_on _ ?_
  intro num first revs bp ih version hwf
  rw [vss_file_item_file.wf.eq_def] at hwf
  dsimp only at hwf
  obtain ⟨h1, h2, h3, hbp⟩ := hwf
  simp only [vss_file_item_file.revisions, vss_file_item_file.num_revisions,
    vss_file_item_file.first_revision, vss_file_item_file.branch_parent]
  rw [vss_file_item_file.get_revision.eq_def]
  dsimp only
  by_cases hrev : revs = []
  · simp [hrev]
  · rw [if_neg hrev]
    by_cases hrange : version < 1 ∨ version > num
    · rw [if_pos hrange]
      refine ⟨by simp [hrev, hrange], ?_, ?_, ?_, by simp⟩
      · intro _ hf hn
        exfalso
        rcases hrange with h | h <;> omega
      · intro _ _ hv hvf
        exfalso
        rcases hrange with h | h <;> omega
      · intro p _ _ hv hvf
        exfalso
        rcases hrange with h | h <;> omega
    · rw [if_neg hrange]
      push_neg at hrange
      obtain ⟨hv1, hv2⟩ := hrange
      by_cases hloc : first ≤ version
      · rw [if_pos hloc]
        have hidx : py_list_get revs (version - first) =
            .ok (revs.getD (version - first).toNat none) := by
          unfold py_list_get
          rw [if_pos ⟨by omega, by omega⟩]
        rw [hidx]
        refine ⟨by simp [hrev]; omega, fun _ _ _ => rfl, ?_, ?_, by simp⟩
        · intro _ _ _ hvf
          exfalso
          omega
        · intro p _ _ _ hvf
          exfalso
          omega
      · rw [if_neg hloc]
        cases bp with
        | none =>
            refine ⟨by simp [hrev]; omega, ?_, fun _ _ _ _ => rfl, ?_, by simp⟩
            · intro _ hf _
              exact absurd hf hloc
            · intro p hp
              cases hp
        | some bp' =>
            cases bp' with
            | none =>
                refine ⟨by simp [hrev]; omega, ?_, fun _ _ _ _ => rfl, ?_, by simp⟩
                · intro _ hf _
                  exact absurd hf hloc
                · intro p hp
                  cases hp
            | some p =>
                dsimp only at hbp
                obtain ⟨hpwf, hpnum⟩ := hbp
                have hparent := ih p rfl version hpwf
                refine ⟨?_, ?_, ?_, fun q hq _ _ _ => by cases hq; rfl, hparent.2.2.2.2⟩
                · rw [hparent.1]
                  constructor
                  · rintro ⟨-, h | h⟩ <;> omega
                  · rintro ⟨-, h | h⟩ <;> omega
                · intro _ hf _
                  exact absurd hf hloc
                · intro hc _ _ _
                  rcases hc with hc | hc <;> cases hc

/-- C3 counterexample: a file item whose revision array is empty (its whole
chain lives in branch parents that were not resolved) returns `None` for
version 0 instead of raising `ArgumentOutOfRange`, because the emptiness
check precedes the range check. -/
theorem C3_counterexample :
    vss_file_item_file.get_revision (.mk 5 1 [] none) 0 = .ok none ∧
    vss_file_item_file.get_revision (.mk 5 1 [] none) 0 ≠
      .error .argumentOutOfRange ∧
    (0 : Int) < 1 := by
  refine ⟨?_, ?_, by norm_num⟩
  · rw [vss_file_item_file.get_revision.eq_def]
    rfl
  · rw [vss_file_item_file.get_revision.eq_def]
    simp

/-- C3 witness: the amended characterization applied to a concrete two-item
branch chain (child holds revisions 3..4, parent holds 1..2). -/
theorem C3_witness :
    vss_file_item_file.get_revision
        (.mk 4 3 [some 30, some 40] (some (some (.mk 2 1 [some 10, some 20] none)))) 4 =
      .ok (some 40) ∧
    vss_file_item_file.get_revision
        (.mk 4 3 [some 30, some 40] (some (some (.mk 2 1 [some 10, some 20] none)))) 2 =
      vss_file_item_file.get_revision (.mk 2 1 [some 10, some 20] none) 2 := by
  have hpwf : vss_file_item_file.wf (.mk 2 1 [some 10, some 20] none) := by
    rw [vss_file_item_file.wf.eq_def]
    refine ⟨by norm_num, by norm_num, by norm_num, trivial⟩
  have hwf : vss_file_item_file.wf
      (.mk 4 3 [some 30, some 40] (some (some (.mk 2 1 [some 10, some 20] none)))) := by
    rw [vss_file_item_file.wf.eq_def]
    exact ⟨by norm_num, by norm_num, by norm_num, hpwf, by decide⟩
  constructor
  · exact (C3_get_revision_amended _ 4 hwf).2.1 (by simp [vss_file_item_file.revisions])
      (by norm_num [vss_file_item_file.first_revision])
      (by norm_num [vss_file_item_file.num_revisions])
  · exact (C3_get_revision_amended _ 2 hwf).2.2.2.1 _ rfl
      (by simp [vss_file_item_file.revisions]) (by norm_num)
      (by norm_num [vss_file_item_file.first_revision])

/- ---- changeset comments: normalization and dedupe ---- -/

theorem add_comment_nodup (comments : List String) (c : String)
    (h : comments.Nodup) : (add_comment comments c).Nodup := by
  unfold add_comment
  split
  · exact h
  · dsimp only
    split
    · next hcond =>
        simp [List.nodup_append, h, hcond.2]
    · exact h

theorem append_comments_nodup (ch : vss_change) (a : vss_action)
    (h : ch.comments.Nodup) : (ch.append a).comments.Nodup := by
  unfold vss_change.append
  exact add_comment_nodup _ _ (add_comment_nodup _ _ h)

theorem changes_fold_comments_nodup :
    ∀ (rest : List vss_action) (ch : vss_change), ch.comments.Nodup →
      ∀ c ∈ changes_fold ch rest, c.comments.Nodup := by
  intro rest
  induction rest with
  | nil =>
      intro ch h c hc
      rw [changes_fold] at hc
      simp at hc
      rw [hc]
      exact h
  | cons a rest ih =>
      intro ch h c hc
      rw [changes_fold] at hc
      split at hc
      · rcases List.mem_cons.1 hc with rfl | hmem
        · exact h
        · exact ih _ (append_comments_nodup _ _ (by simp [empty_change])) c hmem
      · exact ih _ (append_comments_nodup _ _ h) c hc

/-- C8: `vss_change.append` never lets the comment list acquire a duplicate -
so every changeset built by `vss_changeset_history.build` has pairwise
distinct comments - and two actions in one changeset carrying the comments
"fix\r\nbug" and "fix\nbug" record exactly the single normalized comment
"fix\nbug". -/
theorem C8_comment_normalization_dedupe :
    (∀ (ch : vss_change) (a : vss_action), ch.comments.Nodup → (ch.append a).comments.Nodup) ∧
    (∀ (actions : List vss_action), ∀ c ∈ build_changesets actions, c.comments.Nodup) ∧
    ((empty_change.append ⟨5, "p", ⟨"alice", "fix\r\nbug", ""⟩⟩).append
        ⟨5, "q", ⟨"alice", "fix\nbug", ""⟩⟩).comments = ["fix\nbug"] := by
  refine ⟨append_comments_nodup, ?_, by decide⟩
  intro actions c hc
  unfold build_changesets at hc
  rcases hms : actions.mergeSort action_le with - | ⟨a, rest⟩
  · rw [hms] at hc
    simp at hc
  · rw [hms] at hc
    exact changes_fold_comments_nodup rest _
      (append_comments_nodup _ _ (by simp [empty_change])) c hc

/-- C8 witness: dedupe discharged on the concrete two-comment changeset. -/
theorem C8_witness :
    (([] : List String).Nodup) ∧
    ((empty_change.append ⟨5, "p", ⟨"alice", "fix\r\nbug", ""⟩⟩).comments.Nodup) :=
  ⟨by decide, C8_comment_normalization_dedupe.1 empty_change
    ⟨5, "p", ⟨"alice", "fix\r\nbug", ""⟩⟩ (by decide)⟩

/- ---- changeset build: sort order, stability, partition ---- -/

theorem action_le_trans (a b c : vss_action) (hab : action_le a b = true)
    (hbc : action_le b c = true) : action_le a c = true := by
  unfold action_le at hab hbc ⊢
  simp only [Bool.or_eq_true, Bool.and_eq_true, decide_eq_true_eq, beq_iff_eq] at hab hbc ⊢
  rcases hab with h1 | ⟨h1, h1'⟩ <;> rcases hbc with h2 | ⟨h2, h2'⟩
  · exact Or.inl (by omega)
  · exact Or.inl (by omega)
  · exact Or.inl (by omega)
  · exact Or.inr ⟨by omega, le_trans h1' h2'⟩

theorem action_le_total (a b : vss_action) : (action_le a b || action_le b a) = true := by
  unfold action_le
  simp only [Bool.or_eq_true, Bool.and_eq_true, decide_eq_true_eq, beq_iff_eq]
  rcases Nat.lt_trichotomy a.timestamp b.timestamp with h | h | h
  · exact Or.inl (Or.inl h)
  · rcases le_total a.revision.author b.revision.author with ha | ha
    · exact Or.inl (Or.inr ⟨h, ha⟩)
    · exact Or.inr (Or.inr ⟨h.symm, ha⟩)
  · exact Or.inr (Or.inl h)

theorem action_le_of_same_key (a b : vss_action) (h : action_key a = action_key b) :
    action_le a b = true := by
  unfold action_key at h
  rw [Prod.mk.injEq] at h
  unfold action_le
  simp only [Bool.or_eq_true, Bool.and_eq_true, decide_eq_true_eq, beq_iff_eq]
  exact Or.inr ⟨h.1, le_of_eq h.2⟩

theorem mergeSort_action_stable (actions : List vss_action) (k : Nat × String) :
    (actions.mergeSort action_le).filter (fun a => decide (action_key a = k)) =
      actions.filter (fun a => decide (action_key a = k)) := by
  have hmem : ∀ a ∈ actions.filter (fun a => decide (action_key a = k)),
      action_key a = k := by
    intro a ha
    have := List.of_mem_filter ha
    simpa using this
  have hpair : (actions.filter (fun a => decide (action_key a = k))).Pairwise
      (fun a b => action_le a b = true) := by
    apply List.pairwise_of_forall_mem_list
    intro a ha b hb
    exact action_le_of_same_key a b ((hmem a ha).trans (hmem b hb).symm)
  have hsub : (actions.filter (fun a => decide (action_key a = k))).Sublist
      (actions.mergeSort action_le) :=
    List.sublist_mergeSort action_le_trans action_le_total hpair
      (List.filter_sublist actions)
  have hsub2 : (actions.filter (fun a => decide (action_key a = k))).Sublist
      ((actions.mergeSort action_le).filter (fun a => decide (action_key a = k))) := by
    have := List.Sublist.filter (fun a => decide (action_key a = k)) hsub
    rwa [List.filter_filter, show ∀ f : vss_action → Bool, (fun a => f a && f a) = f from
      fun f => funext (fun a => Bool.and_self (f a))] at this
  have hlen : ((actions.mergeSort action_le).filter
      (fun a => decide (action_key a = k))).length =
      (actions.filter (fun a => decide (action_key a = k))).length :=
    ((actions.mergeSort_perm action_le).filter _).length_eq
  exact (hsub2.eq_of_length hlen.symm).symm

theorem append_timestamp_keep (ch : vss_change) (a : vss_action) (t : Nat)
    (h : ch.timestamp = some t) : (ch.append a).timestamp = some t := by
  unfold vss_change.append
  rw [h]

theorem append_author_keep (ch : vss_change) (a : vss_action) (au : String)
    (h : ch.author = some au) : (ch.append a).author = some au := by
  unfold vss_change.append
  rw [h]

theorem changes_fold_spec :
    ∀ (rest : List vss_action) (ch : vss_change) (t : Nat) (au : String),
      ch.timestamp = some t → ch.author = some au → ch.action_list ≠ [] →
      (∀ a ∈ ch.action_list, a.timestamp = t ∧ a.revision.author = au) →
      (∀ c ∈ changes_fold ch rest, c.action_list ≠ []) ∧
      (∀ c ∈ changes_fold ch rest, ∃ t' au', c.timestamp = some t' ∧ c.author = some au' ∧
        ∀ a ∈ c.action_list, a.timestamp = t' ∧ a.revision.author = au') ∧
      ((changes_fold ch rest).map (fun c => c.action_list.reverse)).flatten =
        ch.action_list.reverse ++ rest ∧
      List.Chain' (fun c1 c2 => (c1.timestamp, c1.author) ≠ (c2.timestamp, c2.author))
        (changes_fold ch rest) ∧
      (∃ c0 cs', changes_fold ch rest = c0 :: cs' ∧ c0.timestamp = some t ∧
        c0.author = some au) := by
  intro rest
  induction rest with
  | nil =>
      intro ch t au ht hau hne hkeys
      rw [changes_fold]
      refine ⟨by simpa using hne, ?_, by simp, by simp, ch, [], rfl, ht, hau⟩
      intro c hc
      simp at hc
      subst hc
      exact ⟨t, au, ht, hau, hkeys⟩
  | cons a rest ih =>
      intro ch t au ht hau hne hkeys
      rw [changes_fold]
      by_cases hcond : ch.timestamp ≠ some a.timestamp ∨ ch.author ≠ some a.revision.author
      · rw [if_pos hcond]
        have hnew := ih (empty_change.append a) a.timestamp a.revision.author rfl rfl
          (by simp [vss_change.append, empty_change])
          (by
            intro x hx
            simp [vss_change.append, empty_change] at hx
            rw [hx]
            exact ⟨rfl, rfl⟩)
        obtain ⟨hn1, hn2, hn3, hn4, c0, cs', heq, hc0t, hc0au⟩ := hnew
        refine ⟨?_, ?_, ?_, ?_, ch, changes_fold (empty_change.append a) rest, rfl, ht, hau⟩
        · intro c hc
          rcases List.mem_cons.1 hc with rfl | hmem
          · exact hne
          · exact hn1 c hmem
        · intro c hc
          rcases List.mem_cons.1 hc with rfl | hmem
          · exact ⟨t, au, ht, hau, hkeys⟩
          · exact hn2 c hmem
        · simp only [List.map_cons, List.flatten_cons, hn3]
          simp [vss_change.append, empty_change]
        · rw [heq, List.chain'_cons]
          constructor
          · show (ch.timestamp, ch.author) ≠ (c0.timestamp, c0.author)
            intro hpair
            rw [Prod.mk.injEq] at hpair
            rcases hcond with hc | hc
            · exact hc (hpair.1.trans hc0t)
            · exact hc (hpair.2.trans hc0au)
          · rw [← heq]
            exact hn4
      · rw [if_neg hcond]
        push_neg at hcond
        obtain ⟨hct, hcau⟩ := hcond
        have hat : a.timestamp = t := by
          rw [ht] at hct
          exact (Option.some.injEq .. ▸ hct.symm)
        have haau : a.revision.author = au := by
          rw [hau] at hcau
          exact (Option.some.injEq .. ▸ hcau.symm)
        have hkeep := ih (ch.append a) t au (append_timestamp_keep ch a t ht)
          (append_author_keep ch a au hau)
          (by simp [vss_change.append])
          (by
            intro x hx
            simp only [vss_change.append, List.mem_cons] at hx
            rcases hx with rfl | hx
            · exact ⟨hat, haau⟩
            · exact hkeys x hx)
        obtain ⟨hn1, hn2, hn3, hn4, c0, cs', heq, hc0t, hc0au⟩ := hkeep
        refine ⟨hn1, hn2, ?_, hn4, c0, cs', heq, hc0t, hc0au⟩
        rw [hn3]
        simp [vss_change.append]

/-- C1 (amended): for every drained action list, the sorted stream is
non-decreasing in the key `(timestamp, author)`; the sort is stable (for any
key, the subsequence with that key is unchanged); every changeset is
non-empty; all actions of a changeset share the changeset's key; consecutive
changesets have different keys (runs are maximal); and the concatenation of
the changesets' action lists, **each reversed**, is the sorted stream - each
action is inserted at position 0 of its changeset, so a changeset's
`action_list` is the reverse of the order in which its actions arrived from
the sorted stream. -/
theorem C1_build_changesets_amended (actions : List vss_action) :
    List.Pairwise (fun a b => action_le a b = true) (actions.mergeSort action_le) ∧
    (∀ k : Nat × String,
      (actions.mergeSort action_le).filter (fun a => decide (action_key a = k)) =
        actions.filter (fun a => decide (action_key a = k))) ∧
    (∀ c ∈ build_changesets actions, c.action_list ≠ []) ∧
    (∀ c ∈ build_changesets actions, ∃ t au, c.timestamp = some t ∧ c.author = some au ∧
      ∀ a ∈ c.action_list, a.timestamp = t ∧ a.revision.author = au) ∧
    List.Chain' (fun c1 c2 => (c1.timestamp, c1.author) ≠ (c2.timestamp, c2.author))
      (build_changesets actions) ∧
    ((build_changesets actions).map (fun c => c.action_list.reverse)).flatten =
      actions.mergeSort action_le := by
  refine ⟨List.sorted_mergeSort action_le_trans action_le_total actions,
    mergeSort_action_stable actions, ?_⟩
  unfold build_changesets
  rcases hms : actions.mergeSort action_le with - | ⟨a, rest⟩
  · simp
  · have hspec := changes_fold_spec rest (empty_change.append a) a.timestamp
      a.revision.author rfl rfl (by simp [vss_change.append, empty_change])
      (by
        intro x hx
        simp [vss_change.append, empty_change] at hx
        rw [hx]
        exact ⟨rfl, rfl⟩)
    obtain ⟨h1, h2, h3, h4, -⟩ := hspec
    refine ⟨h1, h2, h4, ?_⟩
    rw [h3]
    simp [vss_change.append, empty_change]

/-- C1 counterexample: two same-key actions arrive as `[p, q]` from the
stable sort, but the changeset's `action_list` is `[q, p]` - the reverse of
the insertion order, because `vss_change.append` inserts at position 0. -/
theorem C1_counterexample :
    (build_changesets [⟨5, "p", ⟨"alice", "", ""⟩⟩, ⟨5, "q", ⟨"alice", "", ""⟩⟩]).map
        (fun c => c.action_list) =
      [[⟨5, "q", ⟨"alice", "", ""⟩⟩, ⟨5, "p", ⟨"alice", "", ""⟩⟩]] ∧
    ([⟨5, "p", ⟨"alice", "", ""⟩⟩, ⟨5, "q", ⟨"alice", "", ""⟩⟩] : List vss_action).mergeSort
        action_le =
      [⟨5, "p", ⟨"alice", "", ""⟩⟩, ⟨5, "q", ⟨"alice", "", ""⟩⟩] ∧
    ([⟨5, "q", ⟨"alice", "", ""⟩⟩, ⟨5, "p", ⟨"alice", "", ""⟩⟩] : List vss_action) ≠
      [⟨5, "p", ⟨"alice", "", ""⟩⟩, ⟨5, "q", ⟨"alice", "", ""⟩⟩] := by
  have hpair : List.Pairwise (fun a b => action_le a b = true)
      ([⟨5, "p", ⟨"alice", "", ""⟩⟩, ⟨5, "q", ⟨"alice", "", ""⟩⟩] : List vss_action) := by
    refine List.pairwise_cons.2 ⟨?_, List.pairwise_singleton _ _⟩
    intro b hb
    simp only [List.mem_singleton] at hb
    subst hb
    exact action_le_of_same_key _ _ rfl
  have hs : ([⟨5, "p", ⟨"alice", "", ""⟩⟩, ⟨5, "q", ⟨"alice", "", ""⟩⟩] :
      List vss_action).mergeSort action_le =
      [⟨5, "p", ⟨"alice", "", ""⟩⟩, ⟨5, "q", ⟨"alice", "", ""⟩⟩] :=
    List.mergeSort_of_sorted hpair
  refine ⟨?_, hs, by decide⟩
  unfold build_changesets
  rw [hs]
  decide
